import Mathlib

/-!
Verification development for the traffic-twin playback/interpolation core
(frontend/src/components/UnifiedVisualization.vue and the SUMO network
geometry preparation in utils.js), shallowly embedded over exact rationals.
-/

namespace TrafficTwin

/-- One entry of a trip path: `[lon, lat, t, speed?, ratio?, angle?]`.
Optional slots (`p[3]`, `p[4]`, `p[5]` in the source) are `Option`. -/
structure Pt where
  lon : ℚ
  lat : ℚ
  t : ℚ
  spd : Option ℚ
  ratio : Option ℚ
  angle : Option ℚ
deriving DecidableEq, Repr

/-- Default point used for out-of-range list reads (never hit on the
in-range indices the proofs use). -/
def dPt : Pt := ⟨0, 0, 0, none, none, none⟩

/-- A trip: `{ id, path }` from the input trajectory dataset. -/
structure Trip where
  id : ℕ
  path : List Pt
deriving DecidableEq, Repr

/-- The record `interpolateSample` returns: `{ pos: [lon,lat], spd_mps, ratio, angle }`. -/
structure Sample where
  lon : ℚ
  lat : ℚ
  spd_mps : ℚ
  ratio : ℚ
  angle : ℚ
deriving DecidableEq, Repr

/-- Timestamp of the i-th path entry (`path[i][2]`). -/
def tsAt (path : List Pt) (i : ℕ) : ℚ := (path.getD i dPt).t

/-- The `getPoint` closure of `interpolateSample`: exact sample with
defaults `p[3] || 0`, `p[4] != null ? p[4] : 0`, `p[5] || 0`. -/
def getPoint (p : Pt) : Sample :=
  { lon := p.lon
    lat := p.lat
    spd_mps := p.spd.getD 0
    ratio := p.ratio.getD 0
    angle := p.angle.getD 0 }

/-- The binary-search loop of `interpolateSample`:
`while (lo + 1 < hi) { mid = (lo+hi) >> 1; if (path[mid][2] <= t) lo = mid; else hi = mid }`.
Embedded with explicit fuel (any fuel at least `hi - lo` reaches the loop exit). -/
def bsearchGo (path : List Pt) (t : ℚ) : ℕ → ℕ → ℕ → ℕ × ℕ
  | 0, lo, hi => (lo, hi)
  | fuel + 1, lo, hi =>
    if lo + 1 < hi then
      let mid := (lo + hi) / 2
      if tsAt path mid ≤ t then bsearchGo path t fuel mid hi
      else bsearchGo path t fuel lo mid
    else (lo, hi)

/-- The ratio combination of `interpolateSample`
(`r0 != null && r1 != null ? r0 + (r1-r0)*f : (r0 != null ? r0 : (r1 != null ? r1 : 0))`). -/
def ratioCombine (r0 r1 : Option ℚ) (f : ℚ) : ℚ :=
  match r0, r1 with
  | some a, some b => a + (b - a) * f
  | some a, none => a
  | none, some b => b
  | none, none => 0

/-- The interpolation step of `interpolateSample` once the bracketing
indices `lo`, `hi` are fixed (source lines computing `dt`, `f`, `lon`,
`lat`, `spd_mps`, `ratio`, `angle`). -/
def interpAt (path : List Pt) (t : ℚ) (lo hi : ℕ) : Sample :=
  let p0 := path.getD lo dPt
  let p1 := path.getD hi dPt
  let dt := p1.t - p0.t
  let f := if 0 < dt then (t - p0.t) / dt else 0
  { lon := p0.lon + (p1.lon - p0.lon) * f
    lat := p0.lat + (p1.lat - p0.lat) * f
    spd_mps := p0.spd.getD 0 + (p1.spd.getD 0 - p0.spd.getD 0) * f
    ratio := ratioCombine p0.ratio p1.ratio f
    angle := p0.angle.getD 0 + (p1.angle.getD 0 - p0.angle.getD 0) * f }

/-- The function `interpolateSample(d, t)` from UnifiedVisualization.vue. -/
def interpolateSample (d : Trip) (t : ℚ) : Option Sample :=
  let path := d.path
  let n := path.length
  if n = 0 then none
  else if t < tsAt path 0 ∨ tsAt path (n - 1) < t then none
  else if t = tsAt path 0 then some (getPoint (path.getD 0 dPt))
  else if t = tsAt path (n - 1) then some (getPoint (path.getD (n - 1) dPt))
  else
    let r := bsearchGo path t n 0 (n - 1)
    some (interpAt path t r.1 r.2)

/-- Non-decreasing timestamps along a path. -/
def sortedByTime (path : List Pt) : Prop :=
  List.Chain' (fun a b => a.t ≤ b.t) path

/-- Executable check for `sortedByTime`. -/
def pathSortedB : List Pt → Bool
  | [] => true
  | [_] => true
  | a :: b :: rest => decide (a.t ≤ b.t) && pathSortedB (b :: rest)

theorem pathSortedB_iff (path : List Pt) : pathSortedB path = true ↔ sortedByTime path := by
  induction path with
  | nil => simp [pathSortedB, sortedByTime]
  | cons a rest ih =>
    cases rest with
    | nil => simp [pathSortedB, sortedByTime]
    | cons b rest2 =>
      simp only [pathSortedB, Bool.and_eq_true, decide_eq_true_eq, sortedByTime,
        List.chain'_cons]
      exact and_congr_right fun _ => ih

instance (path : List Pt) : Decidable (sortedByTime path) :=
  decidable_of_iff (pathSortedB path = true) (pathSortedB_iff path)

/-- The helper `clamp(v, a, b) = Math.max(a, Math.min(b, v))`. -/
def clamp (v a b : ℚ) : ℚ := max a (min b v)

/-- JavaScript `Math.round` (round half toward positive infinity). -/
def jsRound (q : ℚ) : ℤ := ⌊q + 1 / 2⌋

/-- The three gradient stops of `colorFromFraction`. -/
def gradStops : List (ℤ × ℤ × ℤ) := [(215, 25, 28), (255, 255, 191), (26, 150, 65)]

/-- Channel interpolation within one gradient segment
(`a = stops[seg]`, `b = stops[seg+1]`, rounded channels, fixed alpha 220). -/
def segColor (seg : ℕ) (lt : ℚ) : List ℤ :=
  let a := gradStops.getD seg (0, 0, 0)
  let b := gradStops.getD (seg + 1) (0, 0, 0)
  [ jsRound ((a.1 : ℚ) + ((b.1 : ℚ) - (a.1 : ℚ)) * lt)
  , jsRound ((a.2.1 : ℚ) + ((b.2.1 : ℚ) - (a.2.1 : ℚ)) * lt)
  , jsRound ((a.2.2 : ℚ) + ((b.2.2 : ℚ) - (a.2.2 : ℚ)) * lt)
  , 220 ]

/-- Body of `colorFromFraction` after clamping: `seg = Math.min(1, Math.floor(t*2))`,
`lt = t*2 - seg`. On the clamped domain `t ∈ [0,1]` the floor is nonnegative,
so the integer segment index is taken through `toNat`. -/
def colorBody (t : ℚ) : List ℤ :=
  segColor (min 1 ⌊t * 2⌋).toNat (t * 2 - ((min 1 ⌊t * 2⌋).toNat : ℚ))

/-- The function `colorFromFraction(frac)` from UnifiedVisualization.vue. -/
def colorFromFraction (frac : ℚ) : List ℤ := colorBody (clamp frac 0 1)

/-! ### Helper lemmas about sorted paths and the binary search -/

theorem tsAt_mono {path : List Pt} (hs : sortedByTime path) {i j : ℕ}
    (hij : i ≤ j) (hj : j < path.length) : tsAt path i ≤ tsAt path j := by
  rcases eq_or_lt_of_le hij with rfl | hlt
  · exact le_refl _
  · have hp : List.Pairwise (fun a b : Pt => a.t ≤ b.t) path := by
      have : IsTrans Pt (fun a b : Pt => a.t ≤ b.t) :=
        ⟨fun a b c hab hbc => le_trans hab hbc⟩
      exact List.chain'_iff_pairwise.mp hs
    have hi : i < path.length := lt_trans hlt hj
    have := (List.pairwise_iff_getElem.mp hp) i j hi hj hlt
    unfold tsAt
    rw [List.getD_eq_getElem path dPt hi, List.getD_eq_getElem path dPt hj]
    exact this

theorem bsearchGo_spec (path : List Pt) (t : ℚ) :
    ∀ (fuel lo hi : ℕ), hi - lo ≤ fuel → lo < hi →
      tsAt path lo ≤ t → t < tsAt path hi →
      ∃ lo2, bsearchGo path t fuel lo hi = (lo2, lo2 + 1) ∧
        lo ≤ lo2 ∧ lo2 + 1 ≤ hi ∧ tsAt path lo2 ≤ t ∧ t < tsAt path (lo2 + 1) := by
  intro fuel
  induction fuel with
  | zero =>
    intro lo hi hfuel hlt _ _
    omega
  | succ fuel ih =>
    intro lo hi hfuel hlt hlo hhi
    rw [bsearchGo]
    by_cases hc : lo + 1 < hi
    · simp only [hc, if_true]
      by_cases hle : tsAt path ((lo + hi) / 2) ≤ t
      · simp only [hle, if_true]
        obtain ⟨lo2, heq, h1, h2, h3, h4⟩ :=
          ih ((lo + hi) / 2) hi (by omega) (by omega) hle hhi
        exact ⟨lo2, heq, by omega, h2, h3, h4⟩
      · simp only [hle, if_false]
        obtain ⟨lo2, heq, h1, h2, h3, h4⟩ :=
          ih lo ((lo + hi) / 2) (by omega) (by omega) hlo (lt_of_not_le hle)
        exact ⟨lo2, heq, h1, by omega, h3, h4⟩
    · simp only [hc, if_false]
      have : hi = lo + 1 := by omega
      subst this
      exact ⟨lo, rfl, le_refl _, le_refl _, hlo, hhi⟩

/-- Reaching the interior (search) branch of `interpolateSample`:
for `t` strictly inside the sample range, the result is the interpolation at
the bracket found by the binary search, and that bracket is adjacent and valid. -/
theorem interp_interior (d : Trip) (t : ℚ)
    (h0 : tsAt d.path 0 < t) (h1 : t < tsAt d.path (d.path.length - 1)) :
    ∃ lo, bsearchGo d.path t d.path.length 0 (d.path.length - 1) = (lo, lo + 1) ∧
      lo + 1 ≤ d.path.length - 1 ∧ tsAt d.path lo ≤ t ∧ t < tsAt d.path (lo + 1) ∧
      interpolateSample d t = some (interpAt d.path t lo (lo + 1)) := by
  have hne : d.path.length ≠ 0 := by
    intro h
    rw [h] at h1
    simp only [Nat.zero_sub] at h1
    exact absurd (lt_trans h0 h1) (lt_irrefl _)
  have hpos : 0 < d.path.length - 1 := by
    rcases Nat.eq_zero_or_pos (d.path.length - 1) with h | h
    · rw [h] at h1
      exact absurd (lt_trans h0 h1) (lt_irrefl _)
    · exact h
  obtain ⟨lo, heq, _, h3, h4, h5⟩ :=
    bsearchGo_spec d.path t d.path.length 0 (d.path.length - 1)
      (by omega) hpos (le_of_lt h0) h1
  refine ⟨lo, heq, h3, h4, h5, ?_⟩
  unfold interpolateSample
  simp only [hne, if_false]
  have hr : ¬ (t < tsAt d.path 0 ∨ tsAt d.path (d.path.length - 1) < t) := by
    push_neg
    exact ⟨le_of_lt h0, le_of_lt h1⟩
  simp only [hr, if_false]
  simp only [ne_of_gt h0, if_false]
  simp only [ne_of_lt h1, if_false]
  rw [heq]

/-- With sorted timestamps, a strict bracket at consecutive indices `k`, `k+1`
pins the binary search result to exactly that pair. -/
theorem interp_bracket (d : Trip) (k : ℕ) (t : ℚ) (hs : sortedByTime d.path)
    (hk : k + 1 < d.path.length) (h1 : tsAt d.path k < t) (h2 : t < tsAt d.path (k + 1)) :
    interpolateSample d t = some (interpAt d.path t k (k + 1)) := by
  have h0 : tsAt d.path 0 < t :=
    lt_of_le_of_lt (tsAt_mono hs (Nat.zero_le k) (by omega)) h1
  have hlast : t < tsAt d.path (d.path.length - 1) :=
    lt_of_lt_of_le h2 (tsAt_mono hs (by omega) (by omega))
  obtain ⟨lo, heq, h3, h4, h5, h6⟩ := interp_interior d t h0 hlast
  have hlok : lo = k := by
    by_contra hne
    rcases Nat.lt_or_ge lo k with hlt | hge
    · have : lo + 1 ≤ k := hlt
      have := tsAt_mono hs this (by omega)
      exact absurd (lt_of_lt_of_le h5 (lt_of_le_of_lt this h1).le) (lt_irrefl t)
    · have hgt : k < lo := lt_of_le_of_ne hge (fun h => hne h.symm)
      have hk1lo : k + 1 ≤ lo := hgt
      have := tsAt_mono hs hk1lo (by omega)
      exact absurd (lt_of_lt_of_le h2 (le_trans this h4)) (lt_irrefl t)
  rw [hlok] at h6
  exact h6

/-- Value `x` lies strictly between `a` and `b` (in either order). -/
def strictlyBetween (a b x : ℚ) : Prop := min a b < x ∧ x < max a b

/-- Value `x` lies weakly between `a` and `b` (in either order). -/
def weaklyBetween (a b x : ℚ) : Prop := min a b ≤ x ∧ x ≤ max a b

instance (a b x : ℚ) : Decidable (strictlyBetween a b x) :=
  inferInstanceAs (Decidable (min a b < x ∧ x < max a b))

instance (a b x : ℚ) : Decidable (weaklyBetween a b x) :=
  inferInstanceAs (Decidable (min a b ≤ x ∧ x ≤ max a b))

theorem affine_weaklyBetween (a b f : ℚ) (h0 : 0 ≤ f) (h1 : f ≤ 1) :
    weaklyBetween a b (a + (b - a) * f) := by
  rcases le_total a b with hab | hab
  · constructor
    · rw [min_eq_left hab]
      nlinarith
    · rw [max_eq_right hab]
      nlinarith
  · constructor
    · rw [min_eq_right hab]
      nlinarith
    · rw [max_eq_left hab]
      nlinarith

theorem affine_strictlyBetween (a b f : ℚ) (h0 : 0 < f) (h1 : f < 1) (hne : a ≠ b) :
    strictlyBetween a b (a + (b - a) * f) := by
  rcases lt_or_gt_of_ne hne with hab | hab
  · constructor
    · rw [min_eq_left (le_of_lt hab)]
      nlinarith
    · rw [max_eq_right (le_of_lt hab)]
      nlinarith
  · constructor
    · rw [min_eq_right (le_of_lt hab)]
      nlinarith
    · rw [max_eq_left (le_of_lt hab)]
      nlinarith

theorem affine_mono (a b c dt t t' : ℚ) (hdt : 0 < dt) (htt : t ≤ t') :
    (a ≤ b → a + (b - a) * ((t - c) / dt) ≤ a + (b - a) * ((t' - c) / dt))
    ∧ (b ≤ a → a + (b - a) * ((t' - c) / dt) ≤ a + (b - a) * ((t - c) / dt)) := by
  have hf : (t - c) / dt ≤ (t' - c) / dt := by
    apply div_le_div_of_nonneg_right ?_ (le_of_lt hdt)
    linarith
  constructor
  · intro hab
    have := mul_le_mul_of_nonneg_left hf (sub_nonneg.mpr hab)
    linarith
  · intro hba
    have := mul_le_mul_of_nonpos_left hf (sub_nonpos.mpr hba)
    linarith

/-! ### C2: absence characterization of interpolateSample -/

/-- C2: `interpolateSample` returns absent exactly when the trajectory has no
samples or the query time lies strictly before the first or strictly after the
last sample timestamp; within range it always returns a sample (never throws). -/
theorem interpolateSample_none_iff (d : Trip) (t : ℚ) :
    interpolateSample d t = none ↔
      (d.path.length = 0 ∨ t < tsAt d.path 0 ∨ tsAt d.path (d.path.length - 1) < t) := by
  simp only [interpolateSample]
  split_ifs with h1 h2 h3 h4 <;> simp_all

/-! ### C3: termination and bracketing of the binary search -/

/-- C3: for a path of length at least 2, sorted non-decreasing, and a query time
strictly between the first and last timestamps, the binary-search loop of
`interpolateSample` exits with adjacent indices `(lo, lo+1)` inside the path
bracketing `t`; in particular it never selects `p0 == p1`. -/
theorem bsearch_brackets (d : Trip) (t : ℚ) (hs : sortedByTime d.path)
    (hn : 2 ≤ d.path.length) (h0 : tsAt d.path 0 < t)
    (h1 : t < tsAt d.path (d.path.length - 1)) :
    ∃ lo, bsearchGo d.path t d.path.length 0 (d.path.length - 1) = (lo, lo + 1) ∧
      lo + 1 ≤ d.path.length - 1 ∧ tsAt d.path lo ≤ t ∧ t ≤ tsAt d.path (lo + 1) := by
  obtain ⟨lo, heq, _, h3, h4, h5⟩ :=
    bsearchGo_spec d.path t d.path.length 0 (d.path.length - 1)
      (by omega) (by omega) (le_of_lt h0) h1
  exact ⟨lo, heq, h3, h4, le_of_lt h5⟩

/-! ### C10: single-sample trajectories -/

/-- C10: a trajectory with exactly one sample is renderable at exactly one
instant: `interpolateSample` returns that sample verbatim when `t` equals its
timestamp and absent for every other `t`. -/
theorem interpolateSample_single (i : ℕ) (p : Pt) (t : ℚ) :
    interpolateSample ⟨i, [p]⟩ t = if t = p.t then some (getPoint p) else none := by
  unfold interpolateSample
  rcases eq_or_ne t p.t with he | hne
  · simp [tsAt, dPt, he]
  · rcases lt_or_gt_of_ne hne with hlt | hgt
    · simp [tsAt, dPt, hlt, hne]
    · simp [tsAt, dPt, hgt, hne]

theorem interpAt_lon (path : List Pt) (t : ℚ) (lo hi : ℕ)
    (hdt : tsAt path lo < tsAt path hi) :
    (interpAt path t lo hi).lon =
      (path.getD lo dPt).lon + ((path.getD hi dPt).lon - (path.getD lo dPt).lon) *
        ((t - tsAt path lo) / (tsAt path hi - tsAt path lo)) := by
  simp only [tsAt] at hdt ⊢
  simp only [interpAt]
  rw [if_pos (sub_pos.mpr hdt)]

theorem interpAt_lat (path : List Pt) (t : ℚ) (lo hi : ℕ)
    (hdt : tsAt path lo < tsAt path hi) :
    (interpAt path t lo hi).lat =
      (path.getD lo dPt).lat + ((path.getD hi dPt).lat - (path.getD lo dPt).lat) *
        ((t - tsAt path lo) / (tsAt path hi - tsAt path lo)) := by
  simp only [tsAt] at hdt ⊢
  simp only [interpAt]
  rw [if_pos (sub_pos.mpr hdt)]

theorem interpAt_ratio (path : List Pt) (t : ℚ) (lo hi : ℕ)
    (hdt : tsAt path lo < tsAt path hi) :
    (interpAt path t lo hi).ratio =
      ratioCombine (path.getD lo dPt).ratio (path.getD hi dPt).ratio
        ((t - tsAt path lo) / (tsAt path hi - tsAt path lo)) := by
  simp only [tsAt] at hdt ⊢
  simp only [interpAt]
  rw [if_pos (sub_pos.mpr hdt)]

/-- Evaluating `interpolateSample` at an exact first-timestamp match returns the first
sample verbatim through `getPoint`. -/
theorem interp_at_first (d : Trip) (t : ℚ) (hs : sortedByTime d.path)
    (hn : d.path.length ≠ 0) (h0 : t = tsAt d.path 0) :
    interpolateSample d t = some (getPoint (d.path.getD 0 dPt)) := by
  have hle : tsAt d.path 0 ≤ tsAt d.path (d.path.length - 1) :=
    tsAt_mono hs (Nat.zero_le _) (by omega)
  simp only [interpolateSample]
  rw [if_neg hn, if_neg (not_or.mpr ⟨by rw [h0]; exact lt_irrefl _, by rw [h0]; exact not_lt.mpr hle⟩),
    if_pos h0]

/-- Evaluating `interpolateSample` at an exact last-timestamp match (with `t` not also the
first timestamp) returns the last sample verbatim through `getPoint`. -/
theorem interp_at_last (d : Trip) (t : ℚ) (hs : sortedByTime d.path)
    (hn : d.path.length ≠ 0) (h0 : t ≠ tsAt d.path 0)
    (h1 : t = tsAt d.path (d.path.length - 1)) :
    interpolateSample d t = some (getPoint (d.path.getD (d.path.length - 1) dPt)) := by
  have hle : tsAt d.path 0 ≤ tsAt d.path (d.path.length - 1) :=
    tsAt_mono hs (Nat.zero_le _) (by omega)
  simp only [interpolateSample]
  rw [if_neg hn, if_neg (not_or.mpr ⟨by rw [h1]; exact not_lt.mpr hle, by rw [h1]; exact lt_irrefl _⟩),
    if_neg h0, if_pos h1]

/-! ### C1 (amended): positions of interpolated samples -/

/-- C1 (amended): for a sorted trajectory and `t` in range,
(a) if `t` matches a sample timestamp exactly, the returned position is the
recorded position of a sample carrying that timestamp;
(b) otherwise the returned position lies componentwise weakly between the two
bracketing samples' positions, and strictly between in every component where
the bracketing positions differ;
(c) within one bracketing pair the returned position is componentwise monotone
in `t`, following the direction of the bracketing endpoints. -/
theorem interpolateSample_position_spec :
    (∀ (d : Trip) (t : ℚ), sortedByTime d.path → d.path.length ≠ 0 →
      ¬ t < tsAt d.path 0 → ¬ tsAt d.path (d.path.length - 1) < t →
      (∃ k, k < d.path.length ∧ tsAt d.path k = t) →
      ∃ s j, interpolateSample d t = some s ∧ j < d.path.length ∧ tsAt d.path j = t ∧
        s.lon = (d.path.getD j dPt).lon ∧ s.lat = (d.path.getD j dPt).lat)
    ∧ (∀ (d : Trip) (t : ℚ), sortedByTime d.path →
      tsAt d.path 0 < t → t < tsAt d.path (d.path.length - 1) →
      (∀ k, k < d.path.length → tsAt d.path k ≠ t) →
      ∃ lo s, bsearchGo d.path t d.path.length 0 (d.path.length - 1) = (lo, lo + 1) ∧
        interpolateSample d t = some s ∧
        weaklyBetween ((d.path.getD lo dPt).lon) ((d.path.getD (lo + 1) dPt).lon) s.lon ∧
        weaklyBetween ((d.path.getD lo dPt).lat) ((d.path.getD (lo + 1) dPt).lat) s.lat ∧
        ((d.path.getD lo dPt).lon ≠ (d.path.getD (lo + 1) dPt).lon →
          strictlyBetween ((d.path.getD lo dPt).lon) ((d.path.getD (lo + 1) dPt).lon) s.lon) ∧
        ((d.path.getD lo dPt).lat ≠ (d.path.getD (lo + 1) dPt).lat →
          strictlyBetween ((d.path.getD lo dPt).lat) ((d.path.getD (lo + 1) dPt).lat) s.lat))
    ∧ (∀ (d : Trip) (k : ℕ) (t t' : ℚ), sortedByTime d.path → k + 1 < d.path.length →
      tsAt d.path k < t → t ≤ t' → t' < tsAt d.path (k + 1) →
      ∃ s s', interpolateSample d t = some s ∧ interpolateSample d t' = some s' ∧
        ((d.path.getD k dPt).lon ≤ (d.path.getD (k + 1) dPt).lon → s.lon ≤ s'.lon) ∧
        ((d.path.getD (k + 1) dPt).lon ≤ (d.path.getD k dPt).lon → s'.lon ≤ s.lon) ∧
        ((d.path.getD k dPt).lat ≤ (d.path.getD (k + 1) dPt).lat → s.lat ≤ s'.lat) ∧
        ((d.path.getD (k + 1) dPt).lat ≤ (d.path.getD k dPt).lat → s'.lat ≤ s.lat)) := by
  refine ⟨?_, ?_, ?_⟩
  · -- (a) exact timestamp matches
    rintro d t hs hn hlo hhi ⟨k, hk, hkt⟩
    by_cases h0 : t = tsAt d.path 0
    · exact ⟨getPoint (d.path.getD 0 dPt), 0, interp_at_first d t hs hn h0, by omega,
        h0.symm, rfl, rfl⟩
    · by_cases h1 : t = tsAt d.path (d.path.length - 1)
      · exact ⟨getPoint (d.path.getD (d.path.length - 1) dPt), d.path.length - 1,
          interp_at_last d t hs hn h0 h1, by omega, h1.symm, rfl, rfl⟩
      · have hst : tsAt d.path 0 < t := lt_of_le_of_ne (not_lt.mp hlo) (fun h => h0 h.symm)
        have hend : t < tsAt d.path (d.path.length - 1) :=
          lt_of_le_of_ne (not_lt.mp hhi) h1
        obtain ⟨lo, _, hle, h4, h5, h6⟩ := interp_interior d t hst hend
        have hklo : k ≤ lo := by
          by_contra h
          push_neg at h
          have hmono := tsAt_mono hs (show lo + 1 ≤ k by omega) hk
          rw [hkt] at hmono
          exact absurd (lt_of_lt_of_le h5 hmono) (lt_irrefl _)
        have hlolen : lo < d.path.length := by omega
        have hteq : tsAt d.path lo = t := by
          have hmono := tsAt_mono hs hklo hlolen
          rw [hkt] at hmono
          exact le_antisymm h4 hmono
        have hdt : tsAt d.path lo < tsAt d.path (lo + 1) := by
          rw [hteq]
          exact h5
        refine ⟨interpAt d.path t lo (lo + 1), lo, h6, hlolen, hteq, ?_, ?_⟩
        · rw [interpAt_lon d.path t lo (lo + 1) hdt, hteq]
          simp
        · rw [interpAt_lat d.path t lo (lo + 1) hdt, hteq]
          simp
  · -- (b) strictly interior, no exact match
    intro d t hs h0 h1 hne
    have hn : d.path.length ≠ 0 := by
      intro h
      rw [h] at h1
      simp only [Nat.zero_sub] at h1
      exact absurd (lt_trans h0 h1) (lt_irrefl _)
    obtain ⟨lo, heq, hle, h4, h5, h6⟩ := interp_interior d t h0 h1
    have hlolen : lo < d.path.length := by omega
    have hstrict : tsAt d.path lo < t := lt_of_le_of_ne h4 (hne lo hlolen)
    have hdt : tsAt d.path lo < tsAt d.path (lo + 1) := lt_trans hstrict h5
    have hf0 : 0 < (t - tsAt d.path lo) / (tsAt d.path (lo + 1) - tsAt d.path lo) :=
      div_pos (by linarith) (by linarith)
    have hf1 : (t - tsAt d.path lo) / (tsAt d.path (lo + 1) - tsAt d.path lo) < 1 :=
      (div_lt_one (by linarith)).mpr (by linarith)
    refine ⟨lo, interpAt d.path t lo (lo + 1), heq, h6, ?_, ?_, ?_, ?_⟩
    · rw [interpAt_lon d.path t lo (lo + 1) hdt]
      exact affine_weaklyBetween _ _ _ (le_of_lt hf0) (le_of_lt hf1)
    · rw [interpAt_lat d.path t lo (lo + 1) hdt]
      exact affine_weaklyBetween _ _ _ (le_of_lt hf0) (le_of_lt hf1)
    · intro hab
      rw [interpAt_lon d.path t lo (lo + 1) hdt]
      exact affine_strictlyBetween _ _ _ hf0 hf1 hab
    · intro hab
      rw [interpAt_lat d.path t lo (lo + 1) hdt]
      exact affine_strictlyBetween _ _ _ hf0 hf1 hab
  · -- (c) monotone within one bracketing pair
    intro d k t t' hs hk h1 htt h2
    have ht2 : t < tsAt d.path (k + 1) := lt_of_le_of_lt htt h2
    have ht1 : tsAt d.path k < t' := lt_of_lt_of_le h1 htt
    have e1 := interp_bracket d k t hs hk h1 ht2
    have e2 := interp_bracket d k t' hs hk ht1 h2
    have hdt : tsAt d.path k < tsAt d.path (k + 1) := lt_trans h1 ht2
    have hdtpos : 0 < tsAt d.path (k + 1) - tsAt d.path k := by linarith
    refine ⟨interpAt d.path t k (k + 1), interpAt d.path t' k (k + 1), e1, e2, ?_, ?_, ?_, ?_⟩
    · intro hab
      rw [interpAt_lon d.path t k (k + 1) hdt, interpAt_lon d.path t' k (k + 1) hdt]
      exact (affine_mono _ _ _ _ t t' hdtpos htt).1 hab
    · intro hab
      rw [interpAt_lon d.path t k (k + 1) hdt, interpAt_lon d.path t' k (k + 1) hdt]
      exact (affine_mono _ _ _ _ t t' hdtpos htt).2 hab
    · intro hab
      rw [interpAt_lat d.path t k (k + 1) hdt, interpAt_lat d.path t' k (k + 1) hdt]
      exact (affine_mono _ _ _ _ t t' hdtpos htt).1 hab
    · intro hab
      rw [interpAt_lat d.path t k (k + 1) hdt, interpAt_lat d.path t' k (k + 1) hdt]
      exact (affine_mono _ _ _ _ t t' hdtpos htt).2 hab

/-! ### C4: ratio interpolation -/

/-- C4: for an interpolated query bracketed strictly between consecutive
samples `k`, `k+1`, the result ratio combines the endpoint ratios with the
interpolation fraction `f = (t - t0)/(t1 - t0)`: interpolated when both are
present, the present one when exactly one is, and 0 when neither is; at an
exact first or last timestamp match the matched sample is returned verbatim
with an absent ratio defaulted to 0. -/
theorem interpolateSample_ratio_spec :
    (∀ (d : Trip) (k : ℕ) (t : ℚ), sortedByTime d.path → k + 1 < d.path.length →
      tsAt d.path k < t → t < tsAt d.path (k + 1) →
      ∃ s, interpolateSample d t = some s ∧
        s.ratio = ratioCombine ((d.path.getD k dPt).ratio) ((d.path.getD (k + 1) dPt).ratio)
          ((t - tsAt d.path k) / (tsAt d.path (k + 1) - tsAt d.path k)))
    ∧ (∀ (d : Trip) (t : ℚ), sortedByTime d.path → d.path.length ≠ 0 →
      t = tsAt d.path 0 →
      ∃ s, interpolateSample d t = some s ∧
        s.ratio = ((d.path.getD 0 dPt).ratio).getD 0 ∧
        ((d.path.getD 0 dPt).ratio = none → s.ratio = 0))
    ∧ (∀ (d : Trip) (t : ℚ), sortedByTime d.path → d.path.length ≠ 0 →
      t ≠ tsAt d.path 0 → t = tsAt d.path (d.path.length - 1) →
      ∃ s, interpolateSample d t = some s ∧
        s.ratio = ((d.path.getD (d.path.length - 1) dPt).ratio).getD 0 ∧
        ((d.path.getD (d.path.length - 1) dPt).ratio = none → s.ratio = 0)) := by
  refine ⟨?_, ?_, ?_⟩
  · intro d k t hs hk h1 h2
    have e := interp_bracket d k t hs hk h1 h2
    have hdt : tsAt d.path k < tsAt d.path (k + 1) := lt_trans h1 h2
    exact ⟨interpAt d.path t k (k + 1), e, interpAt_ratio d.path t k (k + 1) hdt⟩
  · intro d t hs hn h0
    refine ⟨getPoint (d.path.getD 0 dPt), interp_at_first d t hs hn h0, rfl, ?_⟩
    intro hnone
    show (d.path.getD 0 dPt).ratio.getD 0 = 0
    rw [hnone]
    rfl
  · intro d t hs hn h0 h1
    refine ⟨getPoint (d.path.getD (d.path.length - 1) dPt),
      interp_at_last d t hs hn h0 h1, rfl, ?_⟩
    intro hnone
    show (d.path.getD (d.path.length - 1) dPt).ratio.getD 0 = 0
    rw [hnone]
    rfl

/-! ### C5: the playback clock (the advance/wrap step of animate) -/

/-- One playing tick of `animate`:
`currentTime += deltaTime * speed; if (currentTime > maxTime) currentTime = minTime`. -/
def animateTick (minT maxT m c d : ℚ) : ℚ :=
  let c2 := c + d * m
  if maxT < c2 then minT else c2

/-- Folding `animateTick` over a sequence of wall-clock deltas. -/
def runClock (minT maxT m : ℚ) (c : ℚ) : List ℚ → ℚ
  | [] => c
  | d :: ds => runClock minT maxT m (animateTick minT maxT m c d) ds

theorem runClock_no_wrap (minT maxT m : ℚ) :
    ∀ (ds : List ℚ) (c : ℚ), (∀ d ∈ ds, 0 ≤ d) → 0 ≤ m →
      c + m * ds.sum ≤ maxT →
      runClock minT maxT m c ds = c + m * ds.sum := by
  intro ds
  induction ds with
  | nil =>
    intro c _ _ _
    simp [runClock]
  | cons d ds ih =>
    intro c hpos hm hbound
    have hd : 0 ≤ d := hpos d (List.mem_cons_self d ds)
    have hds : ∀ x ∈ ds, 0 ≤ x := fun x hx => hpos x (List.mem_cons_of_mem d hx)
    have hsum : 0 ≤ ds.sum := List.sum_nonneg hds
    rw [List.sum_cons] at hbound
    have hstep : animateTick minT maxT m c d = c + d * m := by
      unfold animateTick
      rw [if_neg]
      push_neg
      nlinarith
    rw [runClock, hstep, ih (c + d * m) hds hm (by nlinarith)]
    rw [List.sum_cons]
    ring

theorem runClock_bounds (minT maxT m : ℚ) :
    ∀ (ds : List ℚ) (c : ℚ), minT ≤ maxT → minT ≤ c → c ≤ maxT →
      (∀ d ∈ ds, 0 ≤ d) → 0 ≤ m →
      minT ≤ runClock minT maxT m c ds ∧ runClock minT maxT m c ds ≤ maxT := by
  intro ds
  induction ds with
  | nil =>
    intro c _ h1 h2 _ _
    exact ⟨h1, h2⟩
  | cons d ds ih =>
    intro c hmm h1 h2 hpos hm
    have hd : 0 ≤ d := hpos d (List.mem_cons_self d ds)
    have hds : ∀ x ∈ ds, 0 ≤ x := fun x hx => hpos x (List.mem_cons_of_mem d hx)
    rw [runClock]
    refine ih (animateTick minT maxT m c d) hmm ?_ ?_ hds hm
    · simp only [animateTick]
      split_ifs
      · exact le_refl _
      · nlinarith
    · simp only [animateTick]
      split_ifs with h
      · exact hmm
      · exact le_of_not_lt h

/-- C5: the playback clock started at `minTime` advances by the
speed-multiplied elapsed wall time while `m * T` stays below the window
length; any advance past `maxTime` wraps hard to `minTime` (not a clamp); and
after every tick the current time lies within `[minTime, maxTime]`. -/
theorem playbackClock_spec :
    (∀ (minT maxT m : ℚ) (ds : List ℚ), (∀ d ∈ ds, 0 ≤ d) → 0 ≤ m →
      m * ds.sum < maxT - minT →
      runClock minT maxT m minT ds = minT + m * ds.sum)
    ∧ (∀ (minT maxT m c d : ℚ), maxT < c + d * m → animateTick minT maxT m c d = minT)
    ∧ (∀ (minT maxT m c : ℚ) (ds : List ℚ), minT ≤ maxT → minT ≤ c → c ≤ maxT →
      (∀ d ∈ ds, 0 ≤ d) → 0 ≤ m →
      minT ≤ runClock minT maxT m c ds ∧ runClock minT maxT m c ds ≤ maxT) := by
  refine ⟨?_, ?_, ?_⟩
  · intro minT maxT m ds hpos hm hT
    exact runClock_no_wrap minT maxT m ds minT hpos hm (by linarith)
  · intro minT maxT m c d h
    unfold animateTick
    rw [if_pos h]
  · intro minT maxT m c ds hmm h1 h2 hpos hm
    exact runClock_bounds minT maxT m ds c hmm h1 h2 hpos hm

/-! ### C6: the color gradient -/

theorem clamp01_idem (x : ℚ) : clamp (clamp x 0 1) 0 1 = clamp x 0 1 := by
  unfold clamp
  have h0 : (0 : ℚ) ≤ max 0 (min 1 x) := le_max_left _ _
  have h1 : max 0 (min 1 x) ≤ 1 := max_le (by norm_num) (min_le_left _ _)
  rw [min_eq_right h1, max_eq_right h0]

theorem clamp01_of_nonpos {x : ℚ} (h : x ≤ 0) : clamp x 0 1 = 0 := by
  unfold clamp
  rw [min_eq_right (le_trans h (by norm_num)), max_eq_left h]

theorem clamp01_of_one_le {x : ℚ} (h : 1 ≤ x) : clamp x 0 1 = 1 := by
  unfold clamp
  rw [min_eq_left h, max_eq_right (by norm_num)]

section RatComputation

attribute [local semireducible] Rat.add Rat.mul Rat.inv Rat.sub

/-- C6: `colorFromFraction` clamps its input to `[0,1]`; it returns exactly the
three gradient stops (with fixed alpha 220) at ratios 0, 0.5 and 1; every input
at most 0 yields the low stop and every input at least 1 yields the high stop;
and the two gradient segments agree at the segment boundary (ratio 0.5). -/
theorem colorFromFraction_spec :
    colorFromFraction 0 = [215, 25, 28, 220]
    ∧ colorFromFraction (1 / 2) = [255, 255, 191, 220]
    ∧ colorFromFraction 1 = [26, 150, 65, 220]
    ∧ (∀ x : ℚ, colorFromFraction x = colorFromFraction (clamp x 0 1))
    ∧ (∀ x : ℚ, x ≤ 0 → colorFromFraction x = [215, 25, 28, 220])
    ∧ (∀ x : ℚ, 1 ≤ x → colorFromFraction x = [26, 150, 65, 220])
    ∧ segColor 0 1 = segColor 1 0 := by
  refine ⟨by decide, by decide, by decide, ?_, ?_, ?_, by decide⟩
  · intro x
    unfold colorFromFraction
    rw [clamp01_idem]
  · intro x h
    unfold colorFromFraction
    rw [clamp01_of_nonpos h]
    decide
  · intro x h
    unfold colorFromFraction
    rw [clamp01_of_one_le h]
    decide

end RatComputation

/-! ### C7: the per-frame vehicle layer data (getVehiclesData3D) -/

/-- One vehicle entry pushed into `vehiclesByCarModel[carNumber]`:
`{ position: [lon, lat, elevation], angle: sample.angle + 180, id }` together
with the car model number it is grouped under. -/
structure VehEntry where
  car : ℕ
  lon : ℚ
  lat : ℚ
  elev : ℚ
  angle : ℚ
  vid : ℕ
deriving DecidableEq, Repr

/-- Association-list lookup for the `vehicleCarAssignments` map. -/
def lookupA (i : ℕ) : List (ℕ × ℕ) → Option ℕ
  | [] => none
  | kv :: rest => if kv.1 = i then some kv.2 else lookupA i rest

/-- The function `getVehiclesData3D` with its side effects made explicit: it walks the
trips, samples each at the current time, assigns a random car model (drawn
from the `rng` stream, `Math.floor(Math.random()*7)+1`) to vehicles not yet in
the `vehicleCarAssignments` map, and returns the entry list (in trip order)
together with the updated assignment map and remaining randomness. -/
def getVehiclesData3D (t : ℚ) :
    List Trip → List (ℕ × ℕ) → List ℕ → List VehEntry × List (ℕ × ℕ) × List ℕ
  | [], assign, rng => ([], assign, rng)
  | trip :: rest, assign, rng =>
    match interpolateSample trip t with
    | none => getVehiclesData3D t rest assign rng
    | some s =>
      match lookupA trip.id assign with
      | some c =>
        let r := getVehiclesData3D t rest assign rng
        (⟨c, s.lon, s.lat, 0, s.angle + 180, trip.id⟩ :: r.1, r.2)
      | none =>
        let c := rng.headD 0 % 7 + 1
        let r := getVehiclesData3D t rest ((trip.id, c) :: assign) rng.tail
        (⟨c, s.lon, s.lat, 0, s.angle + 180, trip.id⟩ :: r.1, r.2)

/-- The `vehiclesByCarModel[k]` grouping of the computed entries. -/
def byCarModel (entries : List VehEntry) (k : ℕ) : List VehEntry :=
  entries.filter (fun e => e.car = k)

/-- Walking further trips only adds fresh keys to the assignment map; existing
assignments survive unchanged. -/
theorem lookupA_preserved (t : ℚ) :
    ∀ (trips : List Trip) (assign : List (ℕ × ℕ)) (rng : List ℕ) (i c : ℕ),
      lookupA i assign = some c →
      lookupA i (getVehiclesData3D t trips assign rng).2.1 = some c := by
  intro trips
  induction trips with
  | nil =>
    intro assign rng i c h
    exact h
  | cons trip rest ih =>
    intro assign rng i c h
    cases hinterp : interpolateSample trip t with
    | none =>
      simp only [getVehiclesData3D, hinterp]
      exact ih assign rng i c h
    | some s =>
      cases hlk : lookupA trip.id assign with
      | some c0 =>
        simp only [getVehiclesData3D, hinterp, hlk]
        exact ih assign rng i c h
      | none =>
        simp only [getVehiclesData3D, hinterp, hlk]
        apply ih
        have hne : trip.id ≠ i := by
          intro he
          rw [he, h] at hlk
          exact Option.noConfusion hlk
        simp only [lookupA]
        rw [if_neg hne]
        exact h

/-- C7: recomputing the vehicle layer data for the same playback time and trips
from the state left by a previous computation reproduces that computation's
output exactly — the entries, their per-vehicle car-model assignments, the
grouping by car model, and the assignment map itself are all unchanged,
regardless of the randomness available to the second run. -/
theorem getVehiclesData3D_idempotent :
    ∀ (trips : List Trip) (t : ℚ) (assign : List (ℕ × ℕ)) (rng rng2 : List ℕ),
      (getVehiclesData3D t trips (getVehiclesData3D t trips assign rng).2.1 rng2).1
          = (getVehiclesData3D t trips assign rng).1
      ∧ (getVehiclesData3D t trips (getVehiclesData3D t trips assign rng).2.1 rng2).2.1
          = (getVehiclesData3D t trips assign rng).2.1
      ∧ (∀ k, byCarModel (getVehiclesData3D t trips (getVehiclesData3D t trips assign rng).2.1 rng2).1 k
          = byCarModel (getVehiclesData3D t trips assign rng).1 k) := by
  intro trips
  induction trips with
  | nil =>
    intro t assign rng rng2
    exact ⟨rfl, rfl, fun _ => rfl⟩
  | cons trip rest ih =>
    intro t assign rng rng2
    cases hinterp : interpolateSample trip t with
    | none =>
      simp only [getVehiclesData3D, hinterp]
      exact ih t assign rng rng2
    | some s =>
      cases hlk : lookupA trip.id assign with
      | some c =>
        have hlk2 : lookupA trip.id (getVehiclesData3D t rest assign rng).2.1 = some c :=
          lookupA_preserved t rest assign rng trip.id c hlk
        simp only [getVehiclesData3D, hinterp, hlk, hlk2]
        obtain ⟨e1, e2, _⟩ := ih t assign rng rng2
        refine ⟨by rw [e1], by rw [e2], ?_⟩
        intro k
        simp only [byCarModel, List.filter_cons]
        rw [e1]
      | none =>
        have hself : lookupA trip.id ((trip.id, rng.headD 0 % 7 + 1) :: assign)
            = some (rng.headD 0 % 7 + 1) := by
          simp [lookupA]
        have hlk2 : lookupA trip.id
            (getVehiclesData3D t rest ((trip.id, rng.headD 0 % 7 + 1) :: assign) rng.tail).2.1
            = some (rng.headD 0 % 7 + 1) :=
          lookupA_preserved t rest _ rng.tail trip.id _ hself
        simp only [getVehiclesData3D, hinterp, hlk, hlk2]
        obtain ⟨e1, e2, _⟩ := ih t ((trip.id, rng.headD 0 % 7 + 1) :: assign) rng.tail rng2
        refine ⟨by rw [e1], by rw [e2], ?_⟩
        intro k
        simp only [byCarModel, List.filter_cons]
        rw [e1]

/-! ### C8: backend lifecycle state (switchMode) -/

/-- The two view modes. -/
inductive Mode
  | twoD
  | threeD
deriving DecidableEq, Repr

/-- The backend-owning module state: the `map` / `deckgl` variables hold the
id of the currently referenced backend instance, `live` lists every backend
instance constructed and not yet destroyed, `anim` is the scheduled animation
frame id, and `nextId` allocates instance ids. -/
structure VizState where
  nextId : ℕ
  live : List ℕ
  map : Option ℕ
  deckgl : Option ℕ
  anim : Option ℕ
deriving DecidableEq, Repr

/-- Source `cleanup3D()` — destroys only the
instance the `map` variable currently references. -/
def cleanup3D (s : VizState) : VizState :=
  match s.map with
  | some i => { s with live := s.live.erase i, map := none }
  | none => s

/-- Source `cleanup2D()`: finalize and null out the deckgl instance, when set. -/
def cleanup2D (s : VizState) : VizState :=
  match s.deckgl with
  | some i => { s with live := s.live.erase i, deckgl := none }
  | none => s

/-- First half of `switchMode`, up to the `await` on the 100 ms settle delay:
cancel the scheduled animation frame, then run both cleanups. -/
def switchTeardown (s : VizState) : VizState :=
  cleanup2D (cleanup3D { s with anim := none })

/-- Source `init3D()` and `init2D()`: construct a fresh backend instance and store its
handle in `map` (3d) or `deckgl` (2d); the other variable is not touched. -/
def initBackend (m : Mode) (s : VizState) : VizState :=
  match m with
  | Mode.threeD => { s with live := s.nextId :: s.live, map := some s.nextId, nextId := s.nextId + 1 }
  | Mode.twoD => { s with live := s.nextId :: s.live, deckgl := some s.nextId, nextId := s.nextId + 1 }

/-- Second half of `switchMode`, after its `await` resumes: initialize the
backend for the mode read at resume time and restart the animation loop. -/
def switchResume (m : Mode) (s : VizState) : VizState :=
  let s1 := initBackend m s
  { s1 with anim := some s1.nextId, nextId := s1.nextId + 1 }

/-- A completed, non-overlapped `switchMode` call. -/
def switchMode (m : Mode) (s : VizState) : VizState :=
  switchResume m (switchTeardown s)

/-- The event-loop trace of two mode switches fired in rapid succession by
`watch(mode, () => { switchMode() })` (the callback does not await): both
invocations run their teardown phase while suspended on their own settle
delays, then both resume and construct a backend for the final mode. -/
def rapidDoubleSwitch (m : Mode) (s : VizState) : VizState :=
  switchResume m (switchResume m (switchTeardown (switchTeardown s)))

/-- State after `onMounted` with the default 2d backend constructed. -/
def mounted2D : VizState :=
  { nextId := 1, live := [0], map := none, deckgl := some 0, anim := some 0 }

/-! ### C9: junction polygons of prepareSumoNetworkGeojson -/

/-- A raw network feature as the junction pipeline sees it: its `element`
property and its geometry coordinate list (absent geometry modeled as none). -/
structure JFeature where
  element : String
  coords : Option (List (ℚ × ℚ))
deriving DecidableEq, Repr

/-- The junction filter of `prepareSumoNetworkGeojson`:
`f.properties.element === 'junction' && f.geometry.coordinates && f.geometry.coordinates.length > 2`. -/
def junctionFilter (f : JFeature) : Bool :=
  (f.element == "junction") && (decide (2 < (f.coords.getD []).length))

/-- The junction pipeline: filtered records are mapped to polygons whose single
ring is the record's coordinate list verbatim
(`geometry: { type: 'Polygon', coordinates: [f.geometry.coordinates] }`).
Each emitted polygon is modeled by that ring. -/
def junctionFeatures (features : List JFeature) : List (List (ℚ × ℚ)) :=
  (features.filter junctionFilter).map (fun f => f.coords.getD [])

/-- A ring is closed when its first and last coordinates coincide. -/
def isClosedRing (r : List (ℚ × ℚ)) : Prop := r.head? = r.getLast?

instance (r : List (ℚ × ℚ)) : Decidable (isClosedRing r) :=
  inferInstanceAs (Decidable (r.head? = r.getLast?))

/-- Number of distinct coordinates in a ring. -/
def distinctCount (r : List (ℚ × ℚ)) : ℕ := r.dedup.length

/-- C8 (code exhibit): a completed, non-overlapped switch leaves exactly one
live backend, but the event-loop trace of two rapid mode switches — both
teardown phases running before either resume, as produced by the non-awaiting
`watch(mode)` callback and the 100 ms settle delay — leaves TWO live backend
instances: the one constructed by the first resume is orphaned (the `map`
variable is overwritten without `remove()`), violating the at-most-one-live
property the claim states. -/
theorem switchMode_race_two_backends :
    (switchMode Mode.threeD mounted2D).live.length = 1
    ∧ (rapidDoubleSwitch Mode.threeD mounted2D).live.length = 2
    ∧ ¬ (rapidDoubleSwitch Mode.threeD mounted2D).live.length ≤ 1
    ∧ (rapidDoubleSwitch Mode.threeD mounted2D).map = some 3
    ∧ 1 ∈ (rapidDoubleSwitch Mode.threeD mounted2D).live := by
  decide

/-- C9 (amended): a record is emitted as a junction polygon exactly when its
element is junction and its coordinate list has length greater than two
(distinctness is not checked); each emitted polygon's single ring is the
record's coordinate list verbatim, so it is closed exactly when the input's
first and last coordinates already coincide. -/
theorem junctionFeatures_spec :
    (∀ (features : List JFeature) (f : JFeature) (cs : List (ℚ × ℚ)),
      f ∈ features → f.element = "junction" → f.coords = some cs → 2 < cs.length →
      cs ∈ junctionFeatures features)
    ∧ (∀ (features : List JFeature) (r : List (ℚ × ℚ)),
      r ∈ junctionFeatures features →
      2 < r.length ∧ ∃ f, f ∈ features ∧ f.element = "junction" ∧ f.coords = some r) := by
  constructor
  · intro features f cs hmem helem hcoords hlen
    unfold junctionFeatures
    apply List.mem_map.mpr
    refine ⟨f, List.mem_filter.mpr ⟨hmem, ?_⟩, ?_⟩
    · unfold junctionFilter
      rw [helem, hcoords]
      simp [hlen]
    · rw [hcoords]
      rfl
  · intro features r hr
    unfold junctionFeatures at hr
    obtain ⟨f, hf, hfr⟩ := List.mem_map.mp hr
    obtain ⟨hmem, hfilter⟩ := List.mem_filter.mp hf
    unfold junctionFilter at hfilter
    simp only [Bool.and_eq_true] at hfilter
    have h1 : f.element = "junction" := eq_of_beq hfilter.1
    have h2 : 2 < (f.coords.getD []).length := of_decide_eq_true hfilter.2
    cases hc : f.coords with
    | none =>
      rw [hc] at h2
      simp at h2
    | some cs =>
      rw [hc] at hfr h2
      simp only [Option.getD_some] at hfr h2
      rw [hfr] at h2
      exact ⟨h2, f, hmem, h1, by rw [hc, hfr]⟩

/-! ### Concrete instances: counterexamples and witnesses -/

section ConcreteEvaluation

attribute [local semireducible] Rat.add Rat.mul Rat.inv Rat.sub

/-- A stationary vehicle: two samples at the same position, timestamps 0 and 10. -/
def statTrip : Trip := ⟨7, [⟨0, 0, 0, none, none, none⟩, ⟨0, 0, 10, none, none, none⟩]⟩

/-- A moving vehicle with present ratios, timestamps 0 and 10. -/
def wTripA : Trip := ⟨3, [⟨0, 0, 0, none, some (1 / 4), none⟩, ⟨1, 2, 10, none, some (3 / 4), none⟩]⟩

/-- C1 counterexample: for the stationary trajectory, the query time 5 is in
range, sorted, and matches no sample timestamp, yet the interpolated position
equals the (shared) endpoint position and is NOT strictly between the two
bracketing samples' positions — strict betweenness is impossible when the
bracketing coordinates coincide. -/
theorem interp_stationary_not_strictly_between :
    sortedByTime statTrip.path
    ∧ tsAt statTrip.path 0 < 5 ∧ (5 : ℚ) < tsAt statTrip.path 1
    ∧ tsAt statTrip.path 0 ≠ 5 ∧ tsAt statTrip.path 1 ≠ 5
    ∧ (interpolateSample statTrip 5).map Sample.lon = some ((statTrip.path.getD 0 dPt).lon)
    ∧ (interpolateSample statTrip 5).map Sample.lat = some ((statTrip.path.getD 0 dPt).lat)
    ∧ ¬ strictlyBetween ((statTrip.path.getD 0 dPt).lon) ((statTrip.path.getD 1 dPt).lon)
        ((statTrip.path.getD 0 dPt).lon) := by
  decide

theorem interp_position_witness :
    (interpolateSample wTripA 0).map Sample.lon = some 0
    ∧ (interpolateSample wTripA 5).isSome = true := by
  constructor
  · obtain ⟨s, j, hsome, hj, hts, hlon, hlat⟩ :=
      interpolateSample_position_spec.1 wTripA 0 (by decide) (by decide) (by decide) (by decide)
        ⟨0, by decide, by decide⟩
    rw [hsome, Option.map_some']
    rcases j with _ | j2
    · rw [hlon]
      decide
    · rcases j2 with _ | j3
      · exact absurd hts (by decide)
      · have hlen : wTripA.path.length = 2 := by decide
        rw [hlen] at hj
        omega
  · obtain ⟨lo, s, hb, hsome, _⟩ :=
      interpolateSample_position_spec.2.1 wTripA 5 (by decide) (by decide) (by decide) (by decide)
    rw [hsome]
    rfl

theorem bsearch_brackets_witness :
    bsearchGo wTripA.path 5 wTripA.path.length 0 (wTripA.path.length - 1) = (0, 1)
    ∧ tsAt wTripA.path 0 ≤ 5 ∧ (5 : ℚ) ≤ tsAt wTripA.path 1 := by
  obtain ⟨lo, heq, hle, h1, h2⟩ :=
    bsearch_brackets wTripA 5 (by decide) (by decide) (by decide) (by decide)
  have hcomp : bsearchGo wTripA.path 5 wTripA.path.length 0 (wTripA.path.length - 1) = (0, 1) := by
    decide
  rw [hcomp] at heq
  have hlo : (0 : ℕ) = lo := congrArg Prod.fst heq
  subst hlo
  exact ⟨hcomp, h1, h2⟩

theorem interp_ratio_witness :
    (interpolateSample wTripA 5).map Sample.ratio = some (1 / 2)
    ∧ (interpolateSample wTripA 0).map Sample.ratio = some (1 / 4) := by
  constructor
  · obtain ⟨s, hsome, hr⟩ :=
      interpolateSample_ratio_spec.1 wTripA 0 5 (by decide) (by decide) (by decide) (by decide)
    rw [hsome, Option.map_some', hr]
    decide
  · obtain ⟨s, hsome, hr, _⟩ :=
      interpolateSample_ratio_spec.2.1 wTripA 0 (by decide) (by decide) (by decide)
    rw [hsome, Option.map_some', hr]
    decide

theorem playbackClock_witness :
    runClock 0 100 2 0 [1, 2, 3] = 12
    ∧ animateTick 0 100 2 99 1 = 0
    ∧ (0 : ℚ) ≤ runClock 0 100 2 0 [60, 60] ∧ runClock 0 100 2 0 [60, 60] ≤ 100 := by
  refine ⟨?_, ?_, ?_, ?_⟩
  · have h := playbackClock_spec.1 0 100 2 [1, 2, 3] (by decide) (by decide) (by decide)
    rw [h]
    decide
  · exact playbackClock_spec.2.1 0 100 2 99 1 (by decide)
  · exact (playbackClock_spec.2.2 0 100 2 0 [60, 60] (by decide) (by decide) (by decide)
      (by decide) (by decide)).1
  · exact (playbackClock_spec.2.2 0 100 2 0 [60, 60] (by decide) (by decide) (by decide)
      (by decide) (by decide)).2

theorem colorFromFraction_witness :
    colorFromFraction (-3) = [215, 25, 28, 220]
    ∧ colorFromFraction 7 = [26, 150, 65, 220] := by
  exact ⟨colorFromFraction_spec.2.2.2.2.1 (-3) (by norm_num),
    colorFromFraction_spec.2.2.2.2.2.1 7 (by norm_num)⟩

/-- A junction record whose three coordinates are all identical. -/
def jfDegenerate : JFeature := ⟨"junction", some [(0, 0), (0, 0), (0, 0)]⟩

/-- A junction record with three distinct coordinates not forming a closed ring. -/
def jfOpen : JFeature := ⟨"junction", some [(0, 0), (1, 0), (0, 1)]⟩

/-- C9 counterexample: a junction record with only one distinct coordinate
(but list length 3) IS converted, so conversion is not governed by the number
of distinct coordinates; and a converted record's ring is emitted verbatim, so
an emitted junction polygon need not be closed. -/
theorem junction_polygons_cex :
    junctionFeatures [jfDegenerate] = [[(0, 0), (0, 0), (0, 0)]]
    ∧ distinctCount [((0 : ℚ), (0 : ℚ)), (0, 0), (0, 0)] = 1
    ∧ junctionFeatures [jfOpen] = [[(0, 0), (1, 0), (0, 1)]]
    ∧ ¬ isClosedRing [((0 : ℚ), (0 : ℚ)), (1, 0), (0, 1)] := by
  decide

theorem junction_polygons_witness :
    [((0 : ℚ), (0 : ℚ)), (1, 0), (0, 1)] ∈ junctionFeatures [jfOpen] := by
  exact junctionFeatures_spec.1 [jfOpen] jfOpen [((0 : ℚ), (0 : ℚ)), (1, 0), (0, 1)]
    (List.mem_singleton.mpr rfl) rfl rfl (by norm_num)

end ConcreteEvaluation

end TrafficTwin
